import Mathlib

/-!
Shallow embedding of `src/xml-reader/xml-reader.c` (cursor based XML reader).

The document tree produced by the external parser (libxml2) is modelled as an
immutable forest of nodes; node pointers into that tree are modelled as paths
(lists of child indices, with `[i]` denoting the i-th top level node, and the
empty path denoting the xmlDoc object itself viewed as a node).  As in libxml2,
the `parent` link of a top level node is the document node (whose own parent,
name and element content are `NULL`, and whose children are the top level
chain); the reader follows these links in `xml_reader_read_end_element`.
`NULL` pointers and `NULL` strings are modelled with `Option`.  `gint` depth is
modelled as `Int` (overflow is irrelevant at these magnitudes).  Parsing itself
is out of scope: `xml_reader_load_from_data` is modelled on its success path,
taking the already parsed document as an argument.
-/

namespace XmlReaderModel

/-- Node kinds distinguished by the reader: `XML_ELEMENT_NODE`,
`XML_TEXT_NODE`, `XML_DOCUMENT_NODE` (the xmlDoc object itself), and
everything else. -/
inductive XmlNodeType where
  | elementNode
  | textNode
  | documentNode
  | otherNode
deriving DecidableEq, Repr

/-- An attribute: name plus (already entity-decoded) value. -/
structure XmlAttr where
  name : String
  value : String
deriving DecidableEq, Repr

/-- A node of the parsed tree: kind, name (a `NULL` name is possible, e.g. on
the document node — the scan at xml-reader.c line 353 checks for it), decoded
text content (meaningful for text nodes), attribute list in document order,
children in document order. -/
inductive XmlNode where
  | node (typ : XmlNodeType) (name : Option String) (content : String)
         (properties : List XmlAttr) (children : List XmlNode)

def XmlNode.typ : XmlNode → XmlNodeType
  | .node t _ _ _ _ => t

def XmlNode.name : XmlNode → Option String
  | .node _ n _ _ _ => n

def XmlNode.content : XmlNode → String
  | .node _ _ c _ _ => c

def XmlNode.properties : XmlNode → List XmlAttr
  | .node _ _ _ ps _ => ps

def XmlNode.children : XmlNode → List XmlNode
  | .node _ _ _ _ cs => cs

/-- The parsed document: the chain of top level nodes (`doc->children`); the
`xmlRootNode` field of the C struct is the head of this chain. -/
structure XmlDoc where
  topNodes : List XmlNode

/-- A node pointer: path of child indices from the top level; the empty path
is the document node itself. -/
abbrev NodePath := List Nat

/-- The xmlDoc object viewed as a node, as libxml2 type-puns it: kind
`XML_DOCUMENT_NODE`, `NULL` name, children = the top level chain.  It carries
no element content and no attribute list (the xmlDoc struct has no such
fields; the reader never meaningfully reads them there). -/
def docNode (doc : XmlDoc) : XmlNode :=
  XmlNode.node XmlNodeType.documentNode none "" [] doc.topNodes

/-- Walk a path below a given node. -/
def childAt : XmlNode → NodePath → Option XmlNode
  | n, [] => some n
  | n, i :: rest =>
    match n.children[i]? with
    | some c => childAt c rest
    | none => none

/-- Dereference a node pointer in a document; the empty path is the document
node. -/
def nodeAt (doc : XmlDoc) : NodePath → Option XmlNode
  | [] => some (docNode doc)
  | i :: rest =>
    match doc.topNodes[i]? with
    | some n => childAt n rest
    | none => none

/-- Pointer to the document root (`current_doc->xmlRootNode`), `NULL` when the
document has no nodes. -/
def XmlDoc.rootPtr (d : XmlDoc) : Option NodePath :=
  match d.topNodes with
  | [] => none
  | _ :: _ => some [0]

/-- The tree parent of the node a path points at (`node->parent`): the
document node for a top level node (libxml2 sets the root element parent to
the xmlDoc object), and `NULL` for the document node itself. -/
def pathParent (p : NodePath) : Option NodePath :=
  match p with
  | [] => none
  | _ => some p.dropLast

/-- `xmlNodeIsText`. -/
def xmlNodeIsText (n : XmlNode) : Bool :=
  decide (n.typ = XmlNodeType.textNode)

/-- `xmlNodeGetContent` on a text node: its decoded content. -/
def xmlNodeGetContent (n : XmlNode) : String :=
  n.content

/-- Name lookup in an attribute list: value of the first attribute with the
given name. -/
def lookupAttr : List XmlAttr → String → Option String
  | [], _ => none
  | a :: rest, nm => if a.name = nm then some a.value else lookupAttr rest nm

/-- `xmlGetProp`: decoded value of the first attribute with the given name. -/
def xmlGetProp (n : XmlNode) (nm : String) : Option String :=
  lookupAttr n.properties nm

/-- Error kinds of the `XML_READER_ERROR` domain
(`XML_READER_ERROR_INVALID = 0`, `XML_READER_ERROR_UNKNOWN_NODE`). -/
inductive XmlReaderError where
  | invalid
  | unknownNode
deriving DecidableEq, Repr

/-- A `GError` as filled in by `xml_reader_get_error`: error code of the
`XML_READER_ERROR` domain plus message. -/
structure GErr where
  code : XmlReaderError
  message : String
deriving DecidableEq, Repr

/-- The `XmlReaderPrivate` struct.  `current_doc` is the loaded document (the
`NULL` document of a never-loaded reader is modelled as the empty document,
which GObject zero-initialisation also gives for `depth` and `parent`). -/
structure XmlReader where
  is_filename : Bool
  filename : Option String
  error_state : Bool
  last_error : XmlReaderError
  depth : Int
  current_doc : XmlDoc
  parent : Option NodePath
  node_cursor : Option NodePath
  attr_cursor : Option (NodePath × Nat)
  cursor_value : Option String
  attr_value : Option String

/-- `xml_reader_get_error (reader, error)`: when a non-`NULL` location holding
no error is passed, it is filled with a `GError` carrying `last_error`; the
result is the error flag.  The location is modelled as
`none` = `NULL` pointer, `some none` = location holding `NULL`,
`some (some e)` = location already holding an error. -/
def xml_reader_get_error (r : XmlReader) (err : Option (Option GErr)) :
    Option (Option GErr) × Bool :=
  let filled :=
    match err with
    | some none => some (some { code := r.last_error, message := "XmlReader error" })
    | e => e
  (filled, r.error_state)

/-- The call `xml_reader_get_error (reader, NULL)` as performed by every
traversal operation that consults the error state. -/
def xml_reader_get_error0 (r : XmlReader) : Bool :=
  (xml_reader_get_error r none).2

/-- `xml_reader_clear`: drop the cached strings (and release the previous
document; releasing is memory management, the field is overwritten by load). -/
def xml_reader_clear (r : XmlReader) : XmlReader :=
  { r with cursor_value := none, attr_value := none }

/-- `xml_reader_new` / `xml_reader_init`: fresh reader (GObject private data is
zero-initialised, so `depth = 0`, `parent = NULL`, `last_error = 0`). -/
def xml_reader_new : XmlReader :=
  { is_filename := false
    filename := none
    error_state := false
    last_error := XmlReaderError.invalid
    depth := 0
    current_doc := ⟨[]⟩
    parent := none
    node_cursor := none
    attr_cursor := none
    cursor_value := none
    attr_value := none }

/-- `xml_reader_load_from_data`, success path: the external parse
(`xmlReadMemory`) produced `doc`.  Note that neither `error_state` nor
`last_error` is touched. -/
def xml_reader_load_from_data (r : XmlReader) (doc : XmlDoc) : XmlReader × Bool :=
  let r := xml_reader_clear r
  ({ r with
      current_doc := doc
      parent := doc.rootPtr
      node_cursor := none
      attr_cursor := none
      depth := 0 }, true)

/-- A freshly created reader that has successfully loaded `doc`. -/
def freshLoaded (doc : XmlDoc) : XmlReader :=
  (xml_reader_load_from_data xml_reader_new doc).1

/-- Candidate sibling list for `xml_reader_read_start_element` together with
the path prefix of those siblings: the root chain when no cursor is set,
otherwise the children of the cursor node. -/
def startCandidates (r : XmlReader) : List XmlNode × NodePath :=
  match r.node_cursor with
  | none => (r.current_doc.topNodes, [])
  | some p =>
    match nodeAt r.current_doc p with
    | some n => (n.children, p)
    | none => ([], p)

/-- The scan loop of `xml_reader_read_start_element`: first candidate that is
an element node with the requested name, together with its sibling index. -/
def findElem : List XmlNode → String → Option (Nat × XmlNode)
  | [], _ => none
  | n :: rest, nm =>
    if n.typ = XmlNodeType.elementNode ∧ n.name = some nm then some (0, n)
    else (findElem rest nm).map (fun jm => (jm.1 + 1, jm.2))

/-- The text-preload step of `xml_reader_read_start_element`: when the first
child of the matched node is a text node, its decoded content replaces the
cached text; otherwise the previous cached text is kept. -/
def preloadText (old : Option String) (nd : XmlNode) : Option String :=
  match nd.children.head? with
  | some child => if xmlNodeIsText child then some (xmlNodeGetContent child) else old
  | none => old

/-- The attribute-cursor reset of `xml_reader_read_start_element`: head of the
attribute list of the matched node (at path `q`), `NULL` when there is none. -/
def attrCursorInit (q : NodePath) (nd : XmlNode) : Option (NodePath × Nat) :=
  match nd.properties with
  | [] => none
  | _ :: _ => some (q, 0)

/-- State update of `xml_reader_read_start_element` on a match at sibling index
`j` (path `pre ++ [j]`): advance parent/cursor, bump depth, preload the text of
a leading text child, point the attribute cursor at the attribute list head,
drop the cached attribute value. -/
def enterSuccess (r : XmlReader) (pre : NodePath) (j : Nat) (nd : XmlNode) : XmlReader :=
  { r with
      parent := r.node_cursor
      node_cursor := some (pre ++ [j])
      depth := r.depth + 1
      cursor_value := preloadText r.cursor_value nd
      attr_cursor := attrCursorInit (pre ++ [j]) nd
      attr_value := none }

/-- State update of `xml_reader_read_start_element` when the scan finds no
match: enter the error state, park the parent on the old cursor (or the root),
unset the cursor and the attribute cursor.  Depth and cached strings are left
alone. -/
def enterFail (r : XmlReader) : XmlReader :=
  { r with
      error_state := true
      last_error := XmlReaderError.unknownNode
      parent :=
        match r.node_cursor with
        | some p => some p
        | none => r.current_doc.rootPtr
      node_cursor := none
      attr_cursor := none }

/-- `xml_reader_read_start_element`. -/
def xml_reader_read_start_element (r : XmlReader) (element_name : String) :
    XmlReader × Bool :=
  if xml_reader_get_error0 r then (r, false)
  else
    match findElem (startCandidates r).1 element_name with
    | some jn => (enterSuccess r (startCandidates r).2 jn.1 jn.2, true)
    | none => (enterFail r, false)

/-- Normal-path state update of `xml_reader_read_end_element`: drop both cached
strings, decrement depth, pop the cursor to the parent (falling back to the
root when the parent is `NULL`), move the parent one level up, unset the
attribute cursor. -/
def leaveNormal (r : XmlReader) : XmlReader :=
  { r with
      cursor_value := none
      attr_value := none
      depth := r.depth - 1
      node_cursor :=
        match r.parent with
        | none => r.current_doc.rootPtr
        | some p => some p
      parent :=
        match r.parent with
        | none => none
        | some p => pathParent p
      attr_cursor := none }

/-- `xml_reader_read_end_element`.  In the error state it only clears the error
flag and restores the cursor from the parked parent; with no cursor set it
warns and changes nothing; otherwise it takes the normal path. -/
def xml_reader_read_end_element (r : XmlReader) : XmlReader :=
  if xml_reader_get_error0 r then
    match r.parent with
    | none => { r with error_state := false, node_cursor := r.current_doc.rootPtr, parent := none }
    | some p => { r with error_state := false, node_cursor := some p, parent := pathParent p }
  else
    match r.node_cursor with
    | none => r
    | some _ => leaveNormal r

/-- `xml_reader_get_element_name`: the name field of the cursor node, which
may itself be `NULL` (e.g. on the document node). -/
def xml_reader_get_element_name (r : XmlReader) : Option String :=
  if xml_reader_get_error0 r then none
  else
    match r.node_cursor with
    | some p => (nodeAt r.current_doc p).bind XmlNode.name
    | none => none

/-- `xml_reader_get_element_value`. -/
def xml_reader_get_element_value (r : XmlReader) : Option String :=
  if xml_reader_get_error0 r then none
  else r.cursor_value

/-- `xml_reader_has_attributes`. -/
def xml_reader_has_attributes (r : XmlReader) : Bool :=
  if xml_reader_get_error0 r then false
  else
    match r.node_cursor with
    | none => false
    | some p =>
      match nodeAt r.current_doc p with
      | some n => decide (n.properties ≠ [])
      | none => false

/-- The scan loop of `xml_reader_read_attribute_name`: first attribute with the
requested name, together with its index. -/
def findAttr : List XmlAttr → String → Option (Nat × XmlAttr)
  | [], _ => none
  | a :: rest, nm =>
    if a.name = nm then some (0, a)
    else (findAttr rest nm).map (fun ia => (ia.1 + 1, ia.2))

/-- `xml_reader_read_attribute_name`: on a match, select the attribute and
eagerly decode its value; on a miss (or no cursor, or no attributes, or error
state via `xml_reader_has_attributes`), return failure with no state change. -/
def xml_reader_read_attribute_name (r : XmlReader) (attribute_name : String) :
    XmlReader × Bool :=
  match r.node_cursor with
  | none => (r, false)
  | some p =>
    if xml_reader_has_attributes r then
      match nodeAt r.current_doc p with
      | none => (r, false)
      | some n =>
        match findAttr n.properties attribute_name with
        | none => (r, false)
        | some ia =>
          ({ r with
              attr_cursor := some (p, ia.1)
              attr_value := xmlGetProp n ia.2.name }, true)
    else (r, false)

/-- `xml_reader_get_attribute_value`: returns the cached attribute value with
no error-state and no cursor check. -/
def xml_reader_get_attribute_value (r : XmlReader) : Option String :=
  r.attr_value

/-- Traversal operations a caller can issue after a load. -/
inductive XmlOp where
  | enterEl (name : String)
  | leaveEl
deriving DecidableEq, Repr

/-- Apply one traversal operation (discarding the boolean result). -/
def applyOp (r : XmlReader) : XmlOp → XmlReader
  | .enterEl nm => (xml_reader_read_start_element r nm).1
  | .leaveEl => xml_reader_read_end_element r

/-- Run a list of traversal operations. -/
def runOps : XmlReader → List XmlOp → XmlReader
  | r, [] => r
  | r, op :: rest => runOps (applyOp r op) rest

/-- Result of one operation: the boolean of an enter, trivially true for leave. -/
def opStepOk (r : XmlReader) : XmlOp → Bool
  | .enterEl nm => (xml_reader_read_start_element r nm).2
  | .leaveEl => true

/-- All enter operations along the run succeed. -/
def opsOk : XmlReader → List XmlOp → Bool
  | _, [] => true
  | r, op :: rest => opStepOk r op && opsOk (applyOp r op) rest

/-- Number of successful enter calls along a run. -/
def succEnters : XmlReader → List XmlOp → Nat
  | _, [] => 0
  | r, .enterEl nm :: rest =>
    (if (xml_reader_read_start_element r nm).2 then 1 else 0) +
      succEnters (applyOp r (.enterEl nm)) rest
  | r, .leaveEl :: rest => succEnters (xml_reader_read_end_element r) rest

/-- Number of leave calls along a run that take the normal (depth-decrementing)
path: issued with no error state and a cursor set. -/
def normalLeaves : XmlReader → List XmlOp → Nat
  | _, [] => 0
  | r, .enterEl nm :: rest => normalLeaves (applyOp r (.enterEl nm)) rest
  | r, .leaveEl :: rest =>
    (if r.error_state = false ∧ r.node_cursor ≠ none then 1 else 0) +
      normalLeaves (xml_reader_read_end_element r) rest

/-- Balanced operation sequences: every enter is eventually closed by its own
leave. -/
inductive Balanced : List XmlOp → Prop
  | nil : Balanced []
  | wrap (nm : String) {a : List XmlOp} :
      Balanced a → Balanced (XmlOp.enterEl nm :: a ++ [XmlOp.leaveEl])
  | seq {a b : List XmlOp} : Balanced a → Balanced b → Balanced (a ++ b)

/-- States reachable from a freshly loaded document by traversal operations. -/
inductive Reachable (doc : XmlDoc) : XmlReader → Prop
  | load : Reachable doc (freshLoaded doc)
  | enter (nm : String) {r : XmlReader} :
      Reachable doc r → Reachable doc (xml_reader_read_start_element r nm).1
  | leave {r : XmlReader} :
      Reachable doc r → Reachable doc (xml_reader_read_end_element r)

/-- A pointer is valid: absent, or dereferencing to a node. -/
def validPtr (doc : XmlDoc) : Option NodePath → Prop
  | none => True
  | some p => (nodeAt doc p).isSome

/-- Structural invariant of reachable reader states used in the proofs below:
both pointers are valid, an absent cursor outside the error state only occurs
at depth 0, and on an empty document both pointers stay `NULL` and the depth
stays 0. -/
def ReaderInv (r : XmlReader) : Prop :=
  validPtr r.current_doc r.node_cursor ∧
  validPtr r.current_doc r.parent ∧
  (r.error_state = false → r.node_cursor = none → r.depth = 0) ∧
  (r.current_doc.topNodes = [] →
    r.node_cursor = none ∧ r.parent = none ∧ r.depth = 0)

/-- Helper for building sample documents: an element node. -/
def elemN (nm : String) (props : List XmlAttr) (cs : List XmlNode) : XmlNode :=
  XmlNode.node XmlNodeType.elementNode (some nm) "" props cs

/-- Helper for building sample documents: a text node. -/
def textN (s : String) : XmlNode :=
  XmlNode.node XmlNodeType.textNode (some "text") s [] []

/-- Sample document: a bare root element named r. -/
def sampleDoc : XmlDoc := ⟨[elemN "r" [] []]⟩

/-- Sample document: root a holding the text hello followed by an element b
whose only child is the childless element c. -/
def sampleDoc2 : XmlDoc := ⟨[elemN "a" [] [textN "hello", elemN "b" [] [elemN "c" [] []]]]⟩

/-- Sample document: a root with two attributes and a text payload. -/
def attrDoc : XmlDoc := ⟨[elemN "node" [⟨"role", "admin"⟩, ⟨"dir", "rtl"⟩] [textN "payload"]]⟩

/-- Sample document: root r with a childless child element a. -/
def nestedDoc : XmlDoc := ⟨[elemN "r" [] [elemN "a" [] []]]⟩

section Lemmas

variable {r : XmlReader} {doc : XmlDoc} {nm : String} {p : NodePath} {n nd : XmlNode}

theorem get_error0_eq (r : XmlReader) : xml_reader_get_error0 r = r.error_state := rfl

theorem read_start_of_error (nm : String) (h : r.error_state = true) :
    xml_reader_read_start_element r nm = (r, false) := by
  simp [xml_reader_read_start_element, xml_reader_get_error0, xml_reader_get_error, h]

theorem read_start_of_ok (nm : String) (h : r.error_state = false) :
    xml_reader_read_start_element r nm =
      (match findElem (startCandidates r).1 nm with
       | some jn => (enterSuccess r (startCandidates r).2 jn.1 jn.2, true)
       | none => (enterFail r, false)) := by
  simp [xml_reader_read_start_element, xml_reader_get_error0, xml_reader_get_error, h]

theorem read_end_of_error_none (he : r.error_state = true) (hp : r.parent = none) :
    xml_reader_read_end_element r =
      { r with error_state := false, node_cursor := r.current_doc.rootPtr, parent := none } := by
  simp [xml_reader_read_end_element, xml_reader_get_error0, xml_reader_get_error, he, hp]

theorem read_end_of_error_some (he : r.error_state = true) (hp : r.parent = some p) :
    xml_reader_read_end_element r =
      { r with error_state := false, node_cursor := some p, parent := pathParent p } := by
  simp [xml_reader_read_end_element, xml_reader_get_error0, xml_reader_get_error, he, hp]

theorem read_end_no_cursor (he : r.error_state = false) (hc : r.node_cursor = none) :
    xml_reader_read_end_element r = r := by
  simp [xml_reader_read_end_element, xml_reader_get_error0, xml_reader_get_error, he, hc]

theorem read_end_normal (he : r.error_state = false) (hc : r.node_cursor = some p) :
    xml_reader_read_end_element r = leaveNormal r := by
  simp [xml_reader_read_end_element, xml_reader_get_error0, xml_reader_get_error, he, hc]

theorem pathParent_nil : pathParent [] = none := rfl

theorem pathParent_append (p : NodePath) (j : Nat) : pathParent (p ++ [j]) = some p := by
  have hd : (p ++ [j]).dropLast = p := by simp
  cases p with
  | nil => rfl
  | cons a t =>
    show some ((a :: t) ++ [j]).dropLast = some (a :: t)
    rw [hd]

theorem nodeAt_nil (doc : XmlDoc) : nodeAt doc [] = some (docNode doc) := rfl

theorem nodeAt_single (doc : XmlDoc) (j : Nat) : nodeAt doc [j] = doc.topNodes[j]? := by
  show (match doc.topNodes[j]? with
        | some m => childAt m []
        | none => none) = doc.topNodes[j]?
  cases doc.topNodes[j]? with
  | some m => rfl
  | none => rfl

theorem childAt_append (l : NodePath) (j : Nat) :
    ∀ n : XmlNode,
      childAt n (l ++ [j]) =
        match childAt n l with
        | some m => m.children[j]?
        | none => none := by
  induction l with
  | nil =>
    intro n
    show (match n.children[j]? with
          | some c => childAt c []
          | none => none) = n.children[j]?
    cases n.children[j]? with
    | some c => rfl
    | none => rfl
  | cons k t ih =>
    intro n
    show (match n.children[k]? with
          | some c => childAt c (t ++ [j])
          | none => none) =
      match (match n.children[k]? with
             | some c => childAt c t
             | none => none) with
      | some m => m.children[j]?
      | none => none
    cases n.children[k]? with
    | some c => exact ih c
    | none => rfl

theorem nodeAt_append (p : NodePath) (j : Nat) :
    nodeAt doc (p ++ [j]) =
      match nodeAt doc p with
      | some m => m.children[j]?
      | none => none := by
  cases p with
  | nil =>
    show nodeAt doc [j] = doc.topNodes[j]?
    exact nodeAt_single doc j
  | cons i rest =>
    show (match doc.topNodes[i]? with
          | some n => childAt n (rest ++ [j])
          | none => none) =
      match (match doc.topNodes[i]? with
             | some n => childAt n rest
             | none => none) with
      | some m => m.children[j]?
      | none => none
    cases doc.topNodes[i]? with
    | some n => exact childAt_append rest j n
    | none => rfl

theorem nodeAt_append_of_child {j : Nat} (hp : nodeAt doc p = some n)
    (hc : n.children[j]? = some nd) : nodeAt doc (p ++ [j]) = some nd := by
  rw [nodeAt_append p j, hp]
  exact hc

theorem nodeAt_isSome_of_append {j : Nat}
    (h : (nodeAt doc (p ++ [j])).isSome) : (nodeAt doc p).isSome := by
  rw [nodeAt_append p j] at h
  cases hq : nodeAt doc p with
  | some m => simp
  | none => rw [hq] at h; simp at h

theorem validPtr_pathParent (h : (nodeAt doc p).isSome) :
    validPtr doc (pathParent p) := by
  cases p with
  | nil => exact trivial
  | cons a t =>
    show (nodeAt doc (a :: t).dropLast).isSome
    have hpne : (a :: t) ≠ ([] : NodePath) := by simp
    have hrep : (a :: t).dropLast ++ [(a :: t).getLast hpne] = a :: t :=
      List.dropLast_append_getLast hpne
    rw [← hrep] at h
    exact nodeAt_isSome_of_append h

theorem rootPtr_valid (doc : XmlDoc) : validPtr doc doc.rootPtr := by
  unfold XmlDoc.rootPtr
  cases h : doc.topNodes with
  | nil => exact trivial
  | cons m t =>
    show (nodeAt doc [0]).isSome
    rw [nodeAt_single, h]
    simp

theorem rootPtr_none_iff (doc : XmlDoc) : doc.rootPtr = none ↔ doc.topNodes = [] := by
  unfold XmlDoc.rootPtr
  cases doc.topNodes <;> simp

theorem nodeAt_cons_of_empty (h : doc.topNodes = []) (i : Nat) (rest : NodePath) :
    nodeAt doc (i :: rest) = none := by
  show (match doc.topNodes[i]? with
        | some m => childAt m rest
        | none => none) = none
  rw [h]
  rfl

theorem findElem_sound :
    ∀ (l : List XmlNode) (nm : String) (j : Nat) (nd : XmlNode),
      findElem l nm = some (j, nd) →
      l[j]? = some nd ∧ nd.typ = XmlNodeType.elementNode ∧ nd.name = some nm := by
  intro l
  induction l with
  | nil => intro nm j nd h; exact absurd h (by simp [findElem])
  | cons m rest ih =>
    intro nm j nd h
    rw [findElem] at h
    by_cases hc : m.typ = XmlNodeType.elementNode ∧ m.name = some nm
    · rw [if_pos hc] at h
      simp only [Option.some.injEq, Prod.mk.injEq] at h
      obtain ⟨h1, h2⟩ := h
      subst h1
      subst h2
      exact ⟨by simp, hc⟩
    · rw [if_neg hc] at h
      cases hf : findElem rest nm with
      | none => rw [hf] at h; exact Option.noConfusion h
      | some jm =>
        rw [hf] at h
        simp only [Option.map_some', Option.some.injEq, Prod.mk.injEq] at h
        obtain ⟨h1, h2⟩ := h
        subst h1
        subst h2
        obtain ⟨hg, ht, hn⟩ := ih nm jm.1 jm.2 hf
        exact ⟨by simpa using hg, ht, hn⟩

theorem findElem_eq_none :
    ∀ (l : List XmlNode) (nm : String), findElem l nm = none →
      ∀ m ∈ l, ¬(m.typ = XmlNodeType.elementNode ∧ m.name = some nm) := by
  intro l
  induction l with
  | nil => intro nm _ m hm; exact absurd hm (by simp)
  | cons a rest ih =>
    intro nm h m hm
    rw [findElem] at h
    by_cases hc : a.typ = XmlNodeType.elementNode ∧ a.name = some nm
    · rw [if_pos hc] at h; exact Option.noConfusion h
    · rw [if_neg hc] at h
      rcases List.mem_cons.mp hm with rfl | hm2
      · exact hc
      · cases hf : findElem rest nm with
        | none => exact ih nm hf m hm2
        | some jm => rw [hf] at h; exact Option.noConfusion h

theorem findElem_isSome (l : List XmlNode) (nm : String) (m : XmlNode)
    (hm : m ∈ l) (ht : m.typ = XmlNodeType.elementNode) (hn : m.name = some nm) :
    (findElem l nm).isSome := by
  cases hf : findElem l nm with
  | some jn => rfl
  | none => exact absurd ⟨ht, hn⟩ (findElem_eq_none l nm hf m hm)

theorem findAttr_sound :
    ∀ (l : List XmlAttr) (nm : String) (i : Nat) (a : XmlAttr),
      findAttr l nm = some (i, a) → l[i]? = some a ∧ a.name = nm := by
  intro l
  induction l with
  | nil => intro nm i a h; exact absurd h (by simp [findAttr])
  | cons b rest ih =>
    intro nm i a h
    rw [findAttr] at h
    by_cases hc : b.name = nm
    · rw [if_pos hc] at h
      simp only [Option.some.injEq, Prod.mk.injEq] at h
      obtain ⟨h1, h2⟩ := h
      subst h1
      subst h2
      exact ⟨by simp, hc⟩
    · rw [if_neg hc] at h
      cases hf : findAttr rest nm with
      | none => rw [hf] at h; exact Option.noConfusion h
      | some ia =>
        rw [hf] at h
        simp only [Option.map_some', Option.some.injEq, Prod.mk.injEq] at h
        obtain ⟨h1, h2⟩ := h
        subst h1
        subst h2
        obtain ⟨hg, hn⟩ := ih nm ia.1 ia.2 hf
        exact ⟨by simpa using hg, hn⟩

theorem lookupAttr_of_findAttr :
    ∀ (l : List XmlAttr) (nm : String) (i : Nat) (a : XmlAttr),
      findAttr l nm = some (i, a) → lookupAttr l nm = some a.value := by
  intro l
  induction l with
  | nil => intro nm i a h; exact absurd h (by simp [findAttr])
  | cons b rest ih =>
    intro nm i a h
    rw [findAttr] at h
    rw [lookupAttr]
    by_cases hc : b.name = nm
    · rw [if_pos hc] at h
      simp only [Option.some.injEq, Prod.mk.injEq] at h
      rw [if_pos hc, h.2]
    · rw [if_neg hc] at h
      rw [if_neg hc]
      cases hf : findAttr rest nm with
      | none => rw [hf] at h; exact Option.noConfusion h
      | some ia =>
        rw [hf] at h
        simp only [Option.map_some', Option.some.injEq, Prod.mk.injEq] at h
        obtain ⟨h1, h2⟩ := h
        subst h2
        exact ih nm ia.1 ia.2 hf

theorem startCandidates_none (h : r.node_cursor = none) :
    startCandidates r = (r.current_doc.topNodes, []) := by
  simp [startCandidates, h]

theorem startCandidates_some (h : r.node_cursor = some p)
    (hn : nodeAt r.current_doc p = some n) : startCandidates r = (n.children, p) := by
  simp [startCandidates, h, hn]

theorem startCandidates_invalid (h : r.node_cursor = some p)
    (hn : nodeAt r.current_doc p = none) : startCandidates r = ([], p) := by
  simp [startCandidates, h, hn]

theorem enter_true_struct (h : (xml_reader_read_start_element r nm).2 = true) :
    r.error_state = false ∧
    ∃ q nd,
      nodeAt r.current_doc q = some nd ∧
      nd.typ = XmlNodeType.elementNode ∧ nd.name = some nm ∧
      (∀ p0, r.node_cursor = some p0 → pathParent q = some p0) ∧
      (xml_reader_read_start_element r nm).1 =
        { r with
            parent := r.node_cursor
            node_cursor := some q
            depth := r.depth + 1
            cursor_value := preloadText r.cursor_value nd
            attr_cursor := attrCursorInit q nd
            attr_value := none } := by
  have he : r.error_state = false := by
    cases hb : r.error_state
    · rfl
    · rw [read_start_of_error nm hb] at h
      exact Bool.noConfusion h
  refine ⟨he, ?_⟩
  rw [read_start_of_ok nm he] at h
  cases hf : findElem (startCandidates r).1 nm with
  | none =>
    rw [hf] at h
    exact Bool.noConfusion h
  | some jn =>
    obtain ⟨hget, htyp, hname⟩ := findElem_sound _ nm jn.1 jn.2 (by rw [hf])
    cases hcur : r.node_cursor with
    | none =>
      have hsc := startCandidates_none hcur
      rw [hsc] at hget
      refine ⟨[jn.1], jn.2, ?_, htyp, hname, ?_, ?_⟩
      · rw [nodeAt_single]
        exact hget
      · exact fun p0 h0 => Option.noConfusion h0
      · rw [read_start_of_ok nm he, hf, hsc]
        simp [enterSuccess, hcur]
    | some p =>
      cases hn : nodeAt r.current_doc p with
      | none =>
        have hsc := startCandidates_invalid hcur hn
        rw [hsc] at hget
        simp at hget
      | some n =>
        have hsc := startCandidates_some hcur hn
        rw [hsc] at hget
        refine ⟨p ++ [jn.1], jn.2, nodeAt_append_of_child hn hget, htyp, hname, ?_, ?_⟩
        · intro p0 h0
          injection h0 with h1
          subst h1
          exact pathParent_append p jn.1
        · rw [read_start_of_ok nm he, hf, hsc]
          simp [enterSuccess, hcur]

theorem enter_false_cases (h : (xml_reader_read_start_element r nm).2 = false) :
    (r.error_state = true ∧ (xml_reader_read_start_element r nm).1 = r) ∨
    (r.error_state = false ∧ findElem (startCandidates r).1 nm = none ∧
      (xml_reader_read_start_element r nm).1 = enterFail r) := by
  cases hb : r.error_state
  · right
    rw [read_start_of_ok nm hb] at h ⊢
    cases hf : findElem (startCandidates r).1 nm with
    | none => exact ⟨rfl, rfl, rfl⟩
    | some jn => rw [hf] at h; exact Bool.noConfusion h
  · left
    rw [read_start_of_error nm hb]
    exact ⟨rfl, rfl⟩

theorem inv_start (h : ReaderInv r) (nm : String) :
    ReaderInv ((xml_reader_read_start_element r nm).1) := by
  obtain ⟨hcv, hpv, hd0, hde⟩ := h
  cases hres : (xml_reader_read_start_element r nm).2 with
  | true =>
    obtain ⟨he, q, nd, hq, htyp, hname, hpp, hst⟩ := enter_true_struct hres
    rw [hst]
    refine ⟨?_, hcv, ?_, ?_⟩
    · show (nodeAt r.current_doc q).isSome
      rw [hq]
      rfl
    · intro _ hcn
      exact Option.noConfusion hcn
    · intro hemp
      exfalso
      cases q with
      | nil =>
        rw [nodeAt_nil] at hq
        have hnd : nd = docNode r.current_doc := (Option.some.inj hq).symm
        rw [hnd] at htyp
        exact absurd htyp (by simp [docNode, XmlNode.typ])
      | cons i rest =>
        rw [nodeAt_cons_of_empty hemp i rest] at hq
        exact Option.noConfusion hq
  | false =>
    rcases enter_false_cases hres with ⟨he, hst⟩ | ⟨he, hf, hst⟩
    · rw [hst]
      exact ⟨hcv, hpv, hd0, hde⟩
    · rw [hst]
      refine ⟨trivial, ?_, ?_, ?_⟩
      · show validPtr r.current_doc
          (match r.node_cursor with
           | some p => some p
           | none => r.current_doc.rootPtr)
        cases hcur : r.node_cursor with
        | some p =>
          rw [hcur] at hcv
          exact hcv
        | none => exact rootPtr_valid r.current_doc
      · intro hfe
        exact Bool.noConfusion hfe
      · intro hemp
        obtain ⟨hcn0, hpn0, hdz⟩ := hde hemp
        refine ⟨rfl, ?_, hdz⟩
        show (match r.node_cursor with
             | some pp => some pp
             | none => r.current_doc.rootPtr) = none
        rw [hcn0]
        exact (rootPtr_none_iff _).mpr hemp

theorem inv_end (h : ReaderInv r) : ReaderInv (xml_reader_read_end_element r) := by
  obtain ⟨hcv, hpv, hd0, hde⟩ := h
  cases hb : r.error_state with
  | true =>
    cases hp : r.parent with
    | none =>
      rw [read_end_of_error_none hb hp]
      refine ⟨rootPtr_valid _, trivial, ?_, ?_⟩
      · intro _ hcn
        exact (hde ((rootPtr_none_iff _).mp hcn)).2.2
      · intro hemp
        exact ⟨(rootPtr_none_iff _).mpr hemp, rfl, (hde hemp).2.2⟩
    | some p =>
      rw [read_end_of_error_some hb hp]
      rw [hp] at hpv
      refine ⟨hpv, validPtr_pathParent hpv, ?_, ?_⟩
      · intro _ hcn
        exact Option.noConfusion hcn
      · intro hemp
        exact absurd (hp.symm.trans (hde hemp).2.1) (by simp)
  | false =>
    cases hc : r.node_cursor with
    | none =>
      rw [read_end_no_cursor hb hc]
      exact ⟨hcv, hpv, hd0, hde⟩
    | some p =>
      rw [read_end_normal hb hc]
      rw [hc] at hcv
      refine ⟨?_, ?_, ?_, ?_⟩
      · show validPtr r.current_doc
          (match r.parent with
           | none => r.current_doc.rootPtr
           | some pp => some pp)
        cases hp : r.parent with
        | none => exact rootPtr_valid _
        | some pp =>
          rw [hp] at hpv
          exact hpv
      · show validPtr r.current_doc
          (match r.parent with
           | none => none
           | some pp => pathParent pp)
        cases hp : r.parent with
        | none => exact trivial
        | some pp =>
          rw [hp] at hpv
          exact validPtr_pathParent hpv
      · intro _ hcn
        have hcn2 : (match r.parent with
            | none => r.current_doc.rootPtr
            | some pp => some pp) = none := hcn
        cases hp : r.parent with
        | none =>
          rw [hp] at hcn2
          have hemp : r.current_doc.topNodes = [] := (rootPtr_none_iff _).mp hcn2
          exact absurd (hc.symm.trans (hde hemp).1) (by simp)
        | some pp =>
          rw [hp] at hcn2
          exact Option.noConfusion hcn2
      · intro hemp
        exact absurd (hc.symm.trans (hde hemp).1) (by simp)

theorem reachable_inv {r : XmlReader} (h : Reachable doc r) : ReaderInv r := by
  induction h with
  | load =>
    exact ⟨trivial, rootPtr_valid doc, fun _ _ => rfl,
      fun hemp => ⟨rfl, (rootPtr_none_iff doc).mpr hemp, rfl⟩⟩
  | enter nm hs ih => exact inv_start ih nm
  | leave hs ih => exact inv_end ih

theorem runOps_append (r : XmlReader) (a b : List XmlOp) :
    runOps r (a ++ b) = runOps (runOps r a) b := by
  induction a generalizing r with
  | nil => rfl
  | cons op rest ih =>
    show runOps (applyOp r op) (rest ++ b) = _
    exact ih (applyOp r op)

theorem opsOk_append (r : XmlReader) (a b : List XmlOp) :
    opsOk r (a ++ b) = (opsOk r a && opsOk (runOps r a) b) := by
  induction a generalizing r with
  | nil => simp [opsOk, runOps]
  | cons op rest ih =>
    show (opStepOk r op && opsOk (applyOp r op) (rest ++ b)) = _
    rw [ih (applyOp r op), ← Bool.and_assoc]
    rfl

theorem balanced_restore {ops : List XmlOp} (hb : Balanced ops) :
    ∀ (r : XmlReader) (q : NodePath), r.error_state = false → r.node_cursor = some q →
      r.parent = pathParent q → opsOk r ops = true →
      (runOps r ops).error_state = false ∧
      (runOps r ops).node_cursor = some q ∧
      (runOps r ops).parent = pathParent q ∧
      (runOps r ops).depth = r.depth ∧
      (runOps r ops).current_doc = r.current_doc := by
  induction hb with
  | nil => intro r q he hc hp _; exact ⟨he, hc, hp, rfl, rfl⟩
  | @wrap nm a hba ih =>
    intro r q he hc hp hok
    have hok2 : (opStepOk r (XmlOp.enterEl nm) &&
        opsOk (applyOp r (XmlOp.enterEl nm)) (a ++ [XmlOp.leaveEl])) = true := hok
    obtain ⟨hstep, hrest⟩ := Bool.and_eq_true_iff.mp hok2
    have hstep2 : (xml_reader_read_start_element r nm).2 = true := hstep
    obtain ⟨he2, q2, nd, hq2, _, _, hpp, hst⟩ := enter_true_struct hstep2
    have hs1e : (xml_reader_read_start_element r nm).1.error_state = false := by
      rw [hst]; exact he2
    have hs1c : (xml_reader_read_start_element r nm).1.node_cursor = some q2 := by
      rw [hst]
    have hs1p : (xml_reader_read_start_element r nm).1.parent = pathParent q2 := by
      rw [hst, hc]
      exact (hpp q hc).symm
    have hs1d : (xml_reader_read_start_element r nm).1.depth = r.depth + 1 := by
      rw [hst]
    have hs1doc : (xml_reader_read_start_element r nm).1.current_doc = r.current_doc := by
      rw [hst]
    have hrest2 : opsOk (xml_reader_read_start_element r nm).1 (a ++ [XmlOp.leaveEl]) = true :=
      hrest
    rw [opsOk_append] at hrest2
    have hra : opsOk (xml_reader_read_start_element r nm).1 a = true :=
      (Bool.and_eq_true_iff.mp hrest2).1
    obtain ⟨h2e, h2c, h2p, h2d, h2doc⟩ := ih (xml_reader_read_start_element r nm).1 q2 hs1e hs1c hs1p hra
    have hrun : runOps r (XmlOp.enterEl nm :: a ++ [XmlOp.leaveEl]) =
        xml_reader_read_end_element (runOps (xml_reader_read_start_element r nm).1 a) := by
      show runOps (applyOp r (XmlOp.enterEl nm)) (a ++ [XmlOp.leaveEl]) = _
      rw [runOps_append]
      rfl
    have hs2p : (runOps (xml_reader_read_start_element r nm).1 a).parent = some q := by
      rw [h2p, hpp q hc]
    rw [hrun, read_end_normal h2e h2c]
    refine ⟨h2e, ?_, ?_, ?_, ?_⟩
    · show (match (runOps (xml_reader_read_start_element r nm).1 a).parent with
        | none => (runOps (xml_reader_read_start_element r nm).1 a).current_doc.rootPtr
        | some pp => some pp) = some q
      rw [hs2p]
    · show (match (runOps (xml_reader_read_start_element r nm).1 a).parent with
        | none => none
        | some pp => pathParent pp) = pathParent q
      rw [hs2p]
    · show (runOps (xml_reader_read_start_element r nm).1 a).depth - 1 = r.depth
      rw [h2d, hs1d]
      omega
    · show (runOps (xml_reader_read_start_element r nm).1 a).current_doc = r.current_doc
      rw [h2doc, hs1doc]
  | @seq a b hba hbb iha ihb =>
    intro r q he hc hp hok
    rw [opsOk_append] at hok
    obtain ⟨h1a, h1b⟩ := Bool.and_eq_true_iff.mp hok
    obtain ⟨e1, c1, p1, d1, doc1⟩ := iha r q he hc hp h1a
    obtain ⟨e2, c2, p2, d2, doc2⟩ := ihb (runOps r a) q e1 c1 p1 h1b
    rw [runOps_append]
    exact ⟨e2, c2, p2, by rw [d2, d1], by rw [doc2, doc1]⟩

theorem balanced_cursor_restore {ops : List XmlOp} (hb : Balanced ops) :
    ∀ (r : XmlReader) (q : NodePath), r.error_state = false → r.node_cursor = some q →
      opsOk r ops = true →
      (runOps r ops).error_state = false ∧
      (runOps r ops).node_cursor = some q ∧
      (runOps r ops).depth = r.depth ∧
      (runOps r ops).current_doc = r.current_doc := by
  induction hb with
  | nil => intro r q he hc _; exact ⟨he, hc, rfl, rfl⟩
  | @wrap nm a hba _ =>
    intro r q he hc hok
    have hok2 : (opStepOk r (XmlOp.enterEl nm) &&
        opsOk (applyOp r (XmlOp.enterEl nm)) (a ++ [XmlOp.leaveEl])) = true := hok
    obtain ⟨hstep, hrest⟩ := Bool.and_eq_true_iff.mp hok2
    have hstep2 : (xml_reader_read_start_element r nm).2 = true := hstep
    obtain ⟨he2, q2, nd, hq2, _, _, hpp, hst⟩ := enter_true_struct hstep2
    have hs1e : (xml_reader_read_start_element r nm).1.error_state = false := by
      rw [hst]; exact he2
    have hs1c : (xml_reader_read_start_element r nm).1.node_cursor = some q2 := by
      rw [hst]
    have hs1p : (xml_reader_read_start_element r nm).1.parent = pathParent q2 := by
      rw [hst, hc]
      exact (hpp q hc).symm
    have hs1d : (xml_reader_read_start_element r nm).1.depth = r.depth + 1 := by
      rw [hst]
    have hs1doc : (xml_reader_read_start_element r nm).1.current_doc = r.current_doc := by
      rw [hst]
    have hrest2 : opsOk (xml_reader_read_start_element r nm).1 (a ++ [XmlOp.leaveEl]) = true :=
      hrest
    rw [opsOk_append] at hrest2
    have hra : opsOk (xml_reader_read_start_element r nm).1 a = true :=
      (Bool.and_eq_true_iff.mp hrest2).1
    obtain ⟨h2e, h2c, h2p, h2d, h2doc⟩ :=
      balanced_restore hba (xml_reader_read_start_element r nm).1 q2 hs1e hs1c hs1p hra
    have hrun : runOps r (XmlOp.enterEl nm :: a ++ [XmlOp.leaveEl]) =
        xml_reader_read_end_element (runOps (xml_reader_read_start_element r nm).1 a) := by
      show runOps (applyOp r (XmlOp.enterEl nm)) (a ++ [XmlOp.leaveEl]) = _
      rw [runOps_append]
      rfl
    have hs2p : (runOps (xml_reader_read_start_element r nm).1 a).parent = some q := by
      rw [h2p, hpp q hc]
    rw [hrun, read_end_normal h2e h2c]
    refine ⟨h2e, ?_, ?_, ?_⟩
    · show (match (runOps (xml_reader_read_start_element r nm).1 a).parent with
        | none => (runOps (xml_reader_read_start_element r nm).1 a).current_doc.rootPtr
        | some pp => some pp) = some q
      rw [hs2p]
    · show (runOps (xml_reader_read_start_element r nm).1 a).depth - 1 = r.depth
      rw [h2d, hs1d]
      omega
    · show (runOps (xml_reader_read_start_element r nm).1 a).current_doc = r.current_doc
      rw [h2doc, hs1doc]
  | @seq a b hba hbb iha ihb =>
    intro r q he hc hok
    rw [opsOk_append] at hok
    obtain ⟨h1a, h1b⟩ := Bool.and_eq_true_iff.mp hok
    obtain ⟨e1, c1, d1, doc1⟩ := iha r q he hc h1a
    obtain ⟨e2, c2, d2, doc2⟩ := ihb (runOps r a) q e1 c1 h1b
    rw [runOps_append]
    exact ⟨e2, c2, by rw [d2, d1], by rw [doc2, doc1]⟩

theorem balanced_depth {ops : List XmlOp} (hb : Balanced ops) :
    ∀ r : XmlReader, opsOk r ops = true → (runOps r ops).depth = r.depth := by
  induction hb with
  | nil => intro r _; rfl
  | @wrap nm a hba _ =>
    intro r hok
    have hok2 : (opStepOk r (XmlOp.enterEl nm) &&
        opsOk (applyOp r (XmlOp.enterEl nm)) (a ++ [XmlOp.leaveEl])) = true := hok
    obtain ⟨hstep, hrest⟩ := Bool.and_eq_true_iff.mp hok2
    have hstep2 : (xml_reader_read_start_element r nm).2 = true := hstep
    obtain ⟨he2, q2, nd, hq2, _, _, _, hst⟩ := enter_true_struct hstep2
    have hs1e : (xml_reader_read_start_element r nm).1.error_state = false := by
      rw [hst]; exact he2
    have hs1c : (xml_reader_read_start_element r nm).1.node_cursor = some q2 := by
      rw [hst]
    have hs1d : (xml_reader_read_start_element r nm).1.depth = r.depth + 1 := by
      rw [hst]
    have hrest2 : opsOk (xml_reader_read_start_element r nm).1 (a ++ [XmlOp.leaveEl]) = true :=
      hrest
    rw [opsOk_append] at hrest2
    have hra : opsOk (xml_reader_read_start_element r nm).1 a = true :=
      (Bool.and_eq_true_iff.mp hrest2).1
    obtain ⟨h2e, h2c, h2d, h2doc⟩ :=
      balanced_cursor_restore hba (xml_reader_read_start_element r nm).1 q2 hs1e hs1c hra
    have hrun : runOps r (XmlOp.enterEl nm :: a ++ [XmlOp.leaveEl]) =
        xml_reader_read_end_element (runOps (xml_reader_read_start_element r nm).1 a) := by
      show runOps (applyOp r (XmlOp.enterEl nm)) (a ++ [XmlOp.leaveEl]) = _
      rw [runOps_append]
      rfl
    rw [hrun, read_end_normal h2e h2c]
    show (runOps (xml_reader_read_start_element r nm).1 a).depth - 1 = r.depth
    rw [h2d, hs1d]
    omega
  | @seq a b hba hbb iha ihb =>
    intro r hok
    rw [opsOk_append] at hok
    obtain ⟨h1a, h1b⟩ := Bool.and_eq_true_iff.mp hok
    rw [runOps_append]
    rw [ihb (runOps r a) h1b, iha r h1a]

theorem enter_depth (r : XmlReader) (nm : String) :
    (xml_reader_read_start_element r nm).1.depth =
      r.depth + (if (xml_reader_read_start_element r nm).2 then 1 else 0) := by
  cases hres : (xml_reader_read_start_element r nm).2 with
  | false =>
    rcases enter_false_cases hres with ⟨_, hst⟩ | ⟨_, _, hst⟩ <;> rw [hst] <;> simp [enterFail]
  | true =>
    obtain ⟨_, q, nd, _, _, _, _, hst⟩ := enter_true_struct hres
    rw [hst]
    simp

theorem leave_depth (r : XmlReader) :
    (xml_reader_read_end_element r).depth =
      r.depth - (if r.error_state = false ∧ r.node_cursor ≠ none then 1 else 0) := by
  by_cases hcond : r.error_state = false ∧ r.node_cursor ≠ none
  · obtain ⟨hb, hcne⟩ := hcond
    cases hc : r.node_cursor with
    | none => exact absurd hc hcne
    | some p =>
      have hx : some p ≠ (none : Option NodePath) := by simp
      rw [if_pos ⟨hb, hx⟩, read_end_normal hb hc]
      rfl
  · rw [if_neg hcond]
    cases hb : r.error_state with
    | true =>
      cases hp : r.parent with
      | none => rw [read_end_of_error_none hb hp]; simp
      | some p => rw [read_end_of_error_some hb hp]; simp
    | false =>
      cases hc : r.node_cursor with
      | none => rw [read_end_no_cursor hb hc]; simp
      | some p => exact absurd ⟨hb, by rw [hc]; simp⟩ hcond

theorem depth_counter (ops : List XmlOp) : ∀ r : XmlReader,
    (runOps r ops).depth =
      r.depth + (succEnters r ops : Int) - (normalLeaves r ops : Int) := by
  induction ops with
  | nil => intro r; simp [runOps, succEnters, normalLeaves]
  | cons op rest ih =>
    intro r
    cases op with
    | enterEl nm =>
      have hrun : runOps r (XmlOp.enterEl nm :: rest) =
          runOps (xml_reader_read_start_element r nm).1 rest := rfl
      have hsucc : succEnters r (XmlOp.enterEl nm :: rest) =
          (if (xml_reader_read_start_element r nm).2 then 1 else 0) +
            succEnters (xml_reader_read_start_element r nm).1 rest := rfl
      have hnl : normalLeaves r (XmlOp.enterEl nm :: rest) =
          normalLeaves (xml_reader_read_start_element r nm).1 rest := rfl
      rw [hrun, ih (xml_reader_read_start_element r nm).1, hsucc, hnl, enter_depth r nm]
      cases hb : (xml_reader_read_start_element r nm).2 <;> simp <;> omega
    | leaveEl =>
      have hrun : runOps r (XmlOp.leaveEl :: rest) =
          runOps (xml_reader_read_end_element r) rest := rfl
      have hsucc : succEnters r (XmlOp.leaveEl :: rest) =
          succEnters (xml_reader_read_end_element r) rest := rfl
      have hnl : normalLeaves r (XmlOp.leaveEl :: rest) =
          (if r.error_state = false ∧ r.node_cursor ≠ none then 1 else 0) +
            normalLeaves (xml_reader_read_end_element r) rest := rfl
      rw [hrun, ih (xml_reader_read_end_element r), hsucc, hnl, leave_depth r]
      by_cases hcond : r.error_state = false ∧ r.node_cursor ≠ none
      · simp only [if_pos hcond]
        push_cast
        omega
      · simp only [if_neg hcond]
        push_cast
        omega

end Lemmas

section Claims

variable {r : XmlReader} {doc : XmlDoc} {nm : String} {p : NodePath} {n nd : XmlNode}

/-- C9: `xml_reader_get_attribute_value` always returns the cached decoded
attribute value, independent of the error flag, the last error kind, and the
cursor position: it performs no error-state or positioned-cursor check. -/
theorem attribute_value_ignores_error_and_cursor (r : XmlReader) (es : Bool)
    (nc : Option NodePath) (le : XmlReaderError) :
    xml_reader_get_attribute_value r = r.attr_value ∧
    xml_reader_get_attribute_value
        { r with error_state := es, last_error := le, node_cursor := nc } = r.attr_value ∧
    xml_reader_get_attribute_value
        { r with error_state := es, last_error := le, node_cursor := nc } =
      xml_reader_get_attribute_value r :=
  ⟨rfl, rfl, rfl⟩

/-- C10: `xml_reader_get_error` with a non-NULL empty out-location fills it
with a `GError` carrying the last recorded error kind, whatever the error flag
is; its boolean result is always exactly the error flag; and the traversal
check (the NULL-location call) is just that flag, so a reader in the error
state makes `xml_reader_read_start_element` fail with no state change. -/
theorem get_error_fills_location_and_reports_flag (r : XmlReader) (nm : String) :
    (xml_reader_get_error r (some none)).1 =
      some (some { code := r.last_error, message := "XmlReader error" }) ∧
    (∀ loc, (xml_reader_get_error r loc).2 = r.error_state) ∧
    xml_reader_get_error0 r = (xml_reader_get_error r none).2 ∧
    xml_reader_read_start_element { r with error_state := true } nm =
      ({ r with error_state := true }, false) :=
  ⟨rfl, fun _ => rfl, rfl, read_start_of_error nm rfl⟩

/-- C1 (code bug): a successful `xml_reader_load_from_data` on a reader in the
error state resets cursor, depth, caches and attribute selection, but does NOT
clear `error_state` (contradicting the function documentation, which says the
previous state is discarded also for a reader in an error state), so the first
`xml_reader_read_start_element` on the freshly loaded document fails. -/
theorem load_after_error_keeps_error_flag :
    (xml_reader_read_start_element (freshLoaded sampleDoc) "missing").1.error_state = true ∧
    (xml_reader_load_from_data
        (xml_reader_read_start_element (freshLoaded sampleDoc) "missing").1 sampleDoc2).2 = true ∧
    (xml_reader_load_from_data
        (xml_reader_read_start_element (freshLoaded sampleDoc) "missing").1
        sampleDoc2).1.error_state = true ∧
    (xml_reader_load_from_data
        (xml_reader_read_start_element (freshLoaded sampleDoc) "missing").1
        sampleDoc2).1.node_cursor = none ∧
    (xml_reader_load_from_data
        (xml_reader_read_start_element (freshLoaded sampleDoc) "missing").1
        sampleDoc2).1.depth = 0 ∧
    (xml_reader_load_from_data
        (xml_reader_read_start_element (freshLoaded sampleDoc) "missing").1
        sampleDoc2).1.cursor_value = none ∧
    (xml_reader_load_from_data
        (xml_reader_read_start_element (freshLoaded sampleDoc) "missing").1
        sampleDoc2).1.attr_value = none ∧
    (xml_reader_load_from_data
        (xml_reader_read_start_element (freshLoaded sampleDoc) "missing").1
        sampleDoc2).1.attr_cursor = none ∧
    (xml_reader_read_start_element
        (xml_reader_load_from_data
          (xml_reader_read_start_element (freshLoaded sampleDoc) "missing").1 sampleDoc2).1
        "a").2 = false := by
  decide

/-- C7 (amended): starting from a freshly loaded document, after any sequence
of traversal operations the depth equals the number of successful enter calls
minus the number of leave calls that took the normal (depth-decrementing)
path; it is not in general non-negative. -/
theorem depth_eq_enters_minus_normal_leaves (doc : XmlDoc) (ops : List XmlOp) :
    (runOps (freshLoaded doc) ops).depth =
      (succEnters (freshLoaded doc) ops : Int) -
        (normalLeaves (freshLoaded doc) ops : Int) := by
  have h := depth_counter ops (freshLoaded doc)
  have h0 : (freshLoaded doc).depth = 0 := rfl
  rw [h, h0]
  omega

/-- C7 counterexample: an extra leave at the depth-0 resting position (cursor
parked on the root) takes the normal path and drives the depth to -1, so the
depth is neither non-negative nor the count of unmatched enter calls (0). -/
theorem extra_leave_negative_depth_cex :
    (runOps (freshLoaded sampleDoc)
        [XmlOp.enterEl "r", XmlOp.leaveEl, XmlOp.leaveEl]).depth = -1 ∧
    succEnters (freshLoaded sampleDoc)
        [XmlOp.enterEl "r", XmlOp.leaveEl, XmlOp.leaveEl] = 1 ∧
    normalLeaves (freshLoaded sampleDoc)
        [XmlOp.enterEl "r", XmlOp.leaveEl, XmlOp.leaveEl] = 2 := by
  decide

/-- C2 (amended): on every successful `xml_reader_read_start_element` the
cached attribute value is dropped, and the cached text is replaced by the
decoded content of the matched node's first child when that child is a text
node; otherwise (non-text first child, or no child) the PREVIOUS cached text
value is left in place. -/
theorem enter_text_preload_spec
    (h : (xml_reader_read_start_element r nm).2 = true) :
    ∃ q nd,
      (xml_reader_read_start_element r nm).1.node_cursor = some q ∧
      nodeAt r.current_doc q = some nd ∧
      nd.typ = XmlNodeType.elementNode ∧ nd.name = some nm ∧
      (∀ c, nd.children.head? = some c → xmlNodeIsText c = true →
        (xml_reader_read_start_element r nm).1.cursor_value = some (xmlNodeGetContent c)) ∧
      (∀ c, nd.children.head? = some c → xmlNodeIsText c = false →
        (xml_reader_read_start_element r nm).1.cursor_value = r.cursor_value) ∧
      (nd.children.head? = none →
        (xml_reader_read_start_element r nm).1.cursor_value = r.cursor_value) ∧
      (xml_reader_read_start_element r nm).1.attr_value = none := by
  obtain ⟨he, q, nd, hq, htyp, hname, hpp, hst⟩ := enter_true_struct h
  refine ⟨q, nd, by rw [hst], hq, htyp, hname, ?_, ?_, ?_, by rw [hst]⟩
  · intro c hc ht
    rw [hst]
    show preloadText r.cursor_value nd = some (xmlNodeGetContent c)
    simp [preloadText, hc, ht]
  · intro c hc ht
    rw [hst]
    show preloadText r.cursor_value nd = r.cursor_value
    simp [preloadText, hc, ht]
  · intro hc
    rw [hst]
    show preloadText r.cursor_value nd = r.cursor_value
    simp [preloadText, hc]

/-- C2 witness: entering the root of `sampleDoc2`, whose first child is the
text node hello, caches that text. -/
theorem enter_text_preload_spec_witness :
    ∃ q nd,
      (xml_reader_read_start_element (freshLoaded sampleDoc2) "a").1.node_cursor = some q ∧
      nodeAt (freshLoaded sampleDoc2).current_doc q = some nd ∧
      nd.typ = XmlNodeType.elementNode ∧ nd.name = some "a" ∧
      (∀ c, nd.children.head? = some c → xmlNodeIsText c = true →
        (xml_reader_read_start_element (freshLoaded sampleDoc2) "a").1.cursor_value =
          some (xmlNodeGetContent c)) ∧
      (∀ c, nd.children.head? = some c → xmlNodeIsText c = false →
        (xml_reader_read_start_element (freshLoaded sampleDoc2) "a").1.cursor_value =
          (freshLoaded sampleDoc2).cursor_value) ∧
      (nd.children.head? = none →
        (xml_reader_read_start_element (freshLoaded sampleDoc2) "a").1.cursor_value =
          (freshLoaded sampleDoc2).cursor_value) ∧
      (xml_reader_read_start_element (freshLoaded sampleDoc2) "a").1.attr_value = none :=
  enter_text_preload_spec (by decide)

/-- C2 counterexample: after entering element a (caching hello) and then its
child b, whose first child is the element c (not text), the cached text is
still hello, so `cached_text` is present although the matched node's first
child is not a text node, and `xml_reader_get_element_value` reports the stale
value from the previously visited element. -/
theorem enter_nontext_keeps_stale_text_cex :
    (xml_reader_read_start_element
        (xml_reader_read_start_element (freshLoaded sampleDoc2) "a").1 "b").2 = true ∧
    (xml_reader_read_start_element
        (xml_reader_read_start_element (freshLoaded sampleDoc2) "a").1 "b").1.node_cursor =
      some [0, 1] ∧
    ((nodeAt sampleDoc2 [0, 1]).bind (fun m => m.children.head?)).map xmlNodeIsText =
      some false ∧
    xml_reader_get_element_value
        (xml_reader_read_start_element
          (xml_reader_read_start_element (freshLoaded sampleDoc2) "a").1 "b").1 =
      some "hello" := by
  refine ⟨by decide, by decide, ?_, by decide⟩
  rfl

/-- C3 (amended): in every state reachable from a freshly loaded document,
outside the error state, an absent cursor implies depth 0.  The converse
direction of the claimed equivalence is false, see the counterexample. -/
theorem unpositioned_implies_depth_zero (h : Reachable doc r)
    (he : r.error_state = false) (hc : r.node_cursor = none) : r.depth = 0 :=
  (reachable_inv h).2.2.1 he hc

/-- C3 witness: the freshly loaded state is reachable, unpositioned, non-error
and has depth 0. -/
theorem unpositioned_implies_depth_zero_witness :
    (freshLoaded sampleDoc).error_state = false ∧
    (freshLoaded sampleDoc).node_cursor = none ∧
    (freshLoaded sampleDoc).depth = 0 :=
  ⟨rfl, rfl, unpositioned_implies_depth_zero Reachable.load rfl rfl⟩

/-- C3 counterexample: after one balanced enter/leave pair the state is
reachable, non-error and at depth 0, yet `node_cursor` is the root node (not
absent), so depth 0 does not imply an absent cursor. -/
theorem depth_zero_with_cursor_present_cex :
    Reachable sampleDoc
        (runOps (freshLoaded sampleDoc) [XmlOp.enterEl "r", XmlOp.leaveEl]) ∧
    (runOps (freshLoaded sampleDoc) [XmlOp.enterEl "r", XmlOp.leaveEl]).error_state = false ∧
    (runOps (freshLoaded sampleDoc) [XmlOp.enterEl "r", XmlOp.leaveEl]).depth = 0 ∧
    (runOps (freshLoaded sampleDoc) [XmlOp.enterEl "r", XmlOp.leaveEl]).node_cursor =
      some [0] := by
  refine ⟨?_, by decide, by decide, by decide⟩
  exact Reachable.leave (Reachable.enter "r" Reachable.load)

/-- C4 (amended): from any positioned, non-error state, a failed
`xml_reader_read_start_element` followed immediately by
`xml_reader_read_end_element` clears the error flag, restores the cursor and
the observable element name exactly, and depth is changed by neither call.
The stored parent reference ends on the tree parent of the restored cursor
node (the document node, path [], when the cursor is a top level node), so it
is restored exactly when the pre-call parent already was that tree parent; at
the root-positioned state reached by the very first enter, whose stored
parent is NULL, the parent observably changes to the document node.  From the
unpositioned freshly-loaded state even the cursor is not restored (see the
counterexample). -/
theorem failed_enter_recovery_restores_position
    (he : r.error_state = false) (hc : r.node_cursor = some p)
    (hf : (xml_reader_read_start_element r nm).2 = false) :
    (xml_reader_read_end_element (xml_reader_read_start_element r nm).1).error_state = false ∧
    (xml_reader_read_end_element (xml_reader_read_start_element r nm).1).node_cursor = some p ∧
    (xml_reader_read_end_element (xml_reader_read_start_element r nm).1).parent = pathParent p ∧
    (r.parent = pathParent p →
      (xml_reader_read_end_element (xml_reader_read_start_element r nm).1).parent = r.parent) ∧
    (xml_reader_read_end_element (xml_reader_read_start_element r nm).1).depth = r.depth ∧
    (xml_reader_read_start_element r nm).1.depth = r.depth ∧
    xml_reader_get_element_name
        (xml_reader_read_end_element (xml_reader_read_start_element r nm).1) =
      xml_reader_get_element_name r := by
  rcases enter_false_cases hf with ⟨he2, _⟩ | ⟨_, _, hst⟩
  · rw [he2] at he
    exact Bool.noConfusion he
  · rw [hst]
    have hfe : (enterFail r).error_state = true := rfl
    have hfp : (enterFail r).parent = some p := by
      show (match r.node_cursor with
           | some pp => some pp
           | none => r.current_doc.rootPtr) = some p
      rw [hc]
    rw [read_end_of_error_some hfe hfp]
    refine ⟨rfl, rfl, rfl, fun h4 => h4.symm, rfl, rfl, ?_⟩
    have h1 : xml_reader_get_element_name
        { enterFail r with error_state := false, node_cursor := some p, parent := pathParent p } =
        (nodeAt r.current_doc p).bind XmlNode.name := rfl
    have h2 : xml_reader_get_element_name r = (nodeAt r.current_doc p).bind XmlNode.name := by
      simp [xml_reader_get_element_name, xml_reader_get_error0, xml_reader_get_error, he, hc]
    rw [h1, h2]

/-- C4 witness: at the reachable root-positioned state of `nestedDoc` whose
stored parent is already the tree parent of the cursor (the document node,
reached by enter r / enter a / leave), a failed enter of a missing element
followed by a leave restores position, parent, name and depth exactly. -/
theorem failed_enter_recovery_restores_position_witness :
    (xml_reader_read_end_element
        (xml_reader_read_start_element
          (runOps (freshLoaded nestedDoc)
            [XmlOp.enterEl "r", XmlOp.enterEl "a", XmlOp.leaveEl]) "zzz").1).error_state =
      false ∧
    (xml_reader_read_end_element
        (xml_reader_read_start_element
          (runOps (freshLoaded nestedDoc)
            [XmlOp.enterEl "r", XmlOp.enterEl "a", XmlOp.leaveEl]) "zzz").1).node_cursor =
      some [0] ∧
    (xml_reader_read_end_element
        (xml_reader_read_start_element
          (runOps (freshLoaded nestedDoc)
            [XmlOp.enterEl "r", XmlOp.enterEl "a", XmlOp.leaveEl]) "zzz").1).parent =
      pathParent [0] ∧
    ((runOps (freshLoaded nestedDoc)
        [XmlOp.enterEl "r", XmlOp.enterEl "a", XmlOp.leaveEl]).parent = pathParent [0] →
      (xml_reader_read_end_element
          (xml_reader_read_start_element
            (runOps (freshLoaded nestedDoc)
              [XmlOp.enterEl "r", XmlOp.enterEl "a", XmlOp.leaveEl]) "zzz").1).parent =
        (runOps (freshLoaded nestedDoc)
          [XmlOp.enterEl "r", XmlOp.enterEl "a", XmlOp.leaveEl]).parent) ∧
    (xml_reader_read_end_element
        (xml_reader_read_start_element
          (runOps (freshLoaded nestedDoc)
            [XmlOp.enterEl "r", XmlOp.enterEl "a", XmlOp.leaveEl]) "zzz").1).depth =
      (runOps (freshLoaded nestedDoc)
        [XmlOp.enterEl "r", XmlOp.enterEl "a", XmlOp.leaveEl]).depth ∧
    (xml_reader_read_start_element
        (runOps (freshLoaded nestedDoc)
          [XmlOp.enterEl "r", XmlOp.enterEl "a", XmlOp.leaveEl]) "zzz").1.depth =
      (runOps (freshLoaded nestedDoc)
        [XmlOp.enterEl "r", XmlOp.enterEl "a", XmlOp.leaveEl]).depth ∧
    xml_reader_get_element_name
        (xml_reader_read_end_element
          (xml_reader_read_start_element
            (runOps (freshLoaded nestedDoc)
              [XmlOp.enterEl "r", XmlOp.enterEl "a", XmlOp.leaveEl]) "zzz").1) =
      xml_reader_get_element_name
        (runOps (freshLoaded nestedDoc) [XmlOp.enterEl "r", XmlOp.enterEl "a", XmlOp.leaveEl]) :=
  failed_enter_recovery_restores_position rfl rfl (by decide)

/-- C4 counterexample: in the freshly loaded (unpositioned) state a failed
enter followed by a leave does NOT restore the previous cursor: the cursor was
absent before the failed call and is the root node afterwards, and the
observable element name changes from absent to the root name.  And at the
root-positioned state reached by the first enter (stored parent NULL), the
recovery leave does NOT restore the parent: it becomes the document node
(path []), observably — a further leave then rests the cursor on the document
node with a NULL name, whereas a plain leave from the pre-failure state rests
it on the root named r. -/
theorem failed_enter_recovery_moves_unpositioned_cursor_cex :
    (freshLoaded sampleDoc).node_cursor = none ∧
    (xml_reader_read_start_element (freshLoaded sampleDoc) "missing").2 = false ∧
    (xml_reader_read_end_element
        (xml_reader_read_start_element (freshLoaded sampleDoc) "missing").1).node_cursor =
      some [0] ∧
    xml_reader_get_element_name (freshLoaded sampleDoc) = none ∧
    xml_reader_get_element_name
        (xml_reader_read_end_element
          (xml_reader_read_start_element (freshLoaded sampleDoc) "missing").1) =
      some "r" ∧
    (xml_reader_read_start_element (freshLoaded nestedDoc) "r").1.parent = none ∧
    (xml_reader_read_start_element
        (xml_reader_read_start_element (freshLoaded nestedDoc) "r").1 "zzz").2 = false ∧
    (xml_reader_read_end_element
        (xml_reader_read_start_element
          (xml_reader_read_start_element (freshLoaded nestedDoc) "r").1 "zzz").1).parent =
      some [] ∧
    xml_reader_get_element_name
        (xml_reader_read_end_element
          (xml_reader_read_end_element
            (xml_reader_read_start_element
              (xml_reader_read_start_element (freshLoaded nestedDoc) "r").1 "zzz").1)) =
      none ∧
    xml_reader_get_element_name
        (xml_reader_read_end_element
          (xml_reader_read_start_element (freshLoaded nestedDoc) "r").1) = some "r" := by
  decide

/-- C5: for a well-formed document (exactly one top-level element, the root,
named R), the very first `xml_reader_read_start_element` after load scans the
root chain itself: entering R succeeds, and entering any X different from R
fails and puts the reader in the error state with `UNKNOWN_NODE`. -/
theorem root_first_enter (doc : XmlDoc) (R X : String)
    (hex : ∃ m ∈ doc.topNodes, m.typ = XmlNodeType.elementNode ∧ m.name = some R)
    (hall : ∀ m ∈ doc.topNodes, m.typ = XmlNodeType.elementNode → m.name = some R)
    (hne : X ≠ R) :
    (xml_reader_read_start_element (freshLoaded doc) R).2 = true ∧
    (xml_reader_read_start_element (freshLoaded doc) X).2 = false ∧
    (xml_reader_read_start_element (freshLoaded doc) X).1.error_state = true ∧
    (xml_reader_read_start_element (freshLoaded doc) X).1.last_error =
      XmlReaderError.unknownNode := by
  have hef : (freshLoaded doc).error_state = false := rfl
  have hcn : (freshLoaded doc).node_cursor = none := rfl
  have hsc : startCandidates (freshLoaded doc) =
      ((freshLoaded doc).current_doc.topNodes, []) := startCandidates_none hcn
  constructor
  · rw [read_start_of_ok R hef]
    obtain ⟨m, hm, ht, hn⟩ := hex
    have hiss : (findElem (startCandidates (freshLoaded doc)).1 R).isSome := by
      rw [hsc]
      exact findElem_isSome doc.topNodes R m hm ht hn
    cases hfe : findElem (startCandidates (freshLoaded doc)).1 R with
    | some jn => rfl
    | none =>
      rw [hfe] at hiss
      simp at hiss
  · have hnone : findElem (startCandidates (freshLoaded doc)).1 X = none := by
      cases hfe : findElem (startCandidates (freshLoaded doc)).1 X with
      | none => rfl
      | some jn =>
        obtain ⟨hg, ht, hn⟩ := findElem_sound _ X jn.1 jn.2 hfe
        rw [hsc] at hg
        have hmem : jn.2 ∈ doc.topNodes := List.getElem?_mem hg
        have hr : jn.2.name = some R := hall jn.2 hmem ht
        exact absurd (Option.some.inj (hr.symm.trans hn)).symm hne
    refine ⟨?_, ?_, ?_⟩
    · rw [read_start_of_ok X hef, hnone]
    · rw [read_start_of_ok X hef, hnone]
      rfl
    · rw [read_start_of_ok X hef, hnone]
      rfl

/-- C5 witness: on `sampleDoc` (root element r), entering r first succeeds and
entering x first fails with `UNKNOWN_NODE`. -/
theorem root_first_enter_witness :
    (xml_reader_read_start_element (freshLoaded sampleDoc) "r").2 = true ∧
    (xml_reader_read_start_element (freshLoaded sampleDoc) "x").2 = false ∧
    (xml_reader_read_start_element (freshLoaded sampleDoc) "x").1.error_state = true ∧
    (xml_reader_read_start_element (freshLoaded sampleDoc) "x").1.last_error =
      XmlReaderError.unknownNode :=
  root_first_enter sampleDoc "r" "x"
    ⟨elemN "r" [] [], List.Mem.head _, rfl, rfl⟩
    (fun m hm _ => by
      rcases List.mem_singleton.mp hm with rfl
      rfl)
    (by decide)

/-- C6 (amended): a balanced sequence of operations whose enter calls all
succeed always restores the depth to its pre-sequence value; it also restores
the cursor, and therefore the observable element name, from every positioned,
non-error starting state.  Starting from the unpositioned freshly-loaded
state the name is NOT restored, see the counterexample. -/
theorem balanced_run_restores_depth_and_position (r : XmlReader) (ops : List XmlOp)
    (hb : Balanced ops) (hok : opsOk r ops = true) :
    (runOps r ops).depth = r.depth ∧
    (∀ q, r.error_state = false → r.node_cursor = some q →
      (runOps r ops).node_cursor = some q ∧
      xml_reader_get_element_name (runOps r ops) = xml_reader_get_element_name r) := by
  refine ⟨balanced_depth hb r hok, ?_⟩
  intro q he hc
  obtain ⟨e2, c2, d2, doc2⟩ := balanced_cursor_restore hb r q he hc hok
  refine ⟨c2, ?_⟩
  have h1 : xml_reader_get_element_name (runOps r ops) =
      (nodeAt (runOps r ops).current_doc q).bind XmlNode.name := by
    simp [xml_reader_get_element_name, xml_reader_get_error0, xml_reader_get_error, e2, c2]
  have h2 : xml_reader_get_element_name r = (nodeAt r.current_doc q).bind XmlNode.name := by
    simp [xml_reader_get_element_name, xml_reader_get_error0, xml_reader_get_error, he, hc]
  rw [h1, h2, doc2]

/-- C6 witness: positioned at the root of `nestedDoc`, the balanced successful
sequence enter a / leave restores depth, cursor and name. -/
theorem balanced_run_restores_depth_and_position_witness :
    (runOps (runOps (freshLoaded nestedDoc) [XmlOp.enterEl "r"])
        [XmlOp.enterEl "a", XmlOp.leaveEl]).depth =
      (runOps (freshLoaded nestedDoc) [XmlOp.enterEl "r"]).depth ∧
    (runOps (runOps (freshLoaded nestedDoc) [XmlOp.enterEl "r"])
        [XmlOp.enterEl "a", XmlOp.leaveEl]).node_cursor = some [0] ∧
    xml_reader_get_element_name
        (runOps (runOps (freshLoaded nestedDoc) [XmlOp.enterEl "r"])
          [XmlOp.enterEl "a", XmlOp.leaveEl]) =
      xml_reader_get_element_name (runOps (freshLoaded nestedDoc) [XmlOp.enterEl "r"]) := by
  have h := balanced_run_restores_depth_and_position
      (runOps (freshLoaded nestedDoc) [XmlOp.enterEl "r"]) [XmlOp.enterEl "a", XmlOp.leaveEl]
      (Balanced.wrap "a" Balanced.nil) (by decide)
  exact ⟨h.1, (h.2 [0] rfl rfl).1, (h.2 [0] rfl rfl).2⟩

/-- C6 counterexample: from the freshly loaded state of `sampleDoc` the
balanced, fully successful sequence enter r / leave restores the depth but
changes `current_element_name()` from absent to r, so the name is not restored
to its pre-sequence value for every starting state. -/
theorem balanced_run_name_change_cex :
    Balanced [XmlOp.enterEl "r", XmlOp.leaveEl] ∧
    opsOk (freshLoaded sampleDoc) [XmlOp.enterEl "r", XmlOp.leaveEl] = true ∧
    xml_reader_get_element_name (freshLoaded sampleDoc) = none ∧
    xml_reader_get_element_name
        (runOps (freshLoaded sampleDoc) [XmlOp.enterEl "r", XmlOp.leaveEl]) = some "r" :=
  ⟨Balanced.wrap "r" Balanced.nil, by decide, by decide, by decide⟩

/-- C8: with a positioned, non-error cursor on node `n`,
`xml_reader_read_attribute_name` with a name that misses every attribute of
`n` fails and leaves the whole reader state (attribute selection and cached
decoded value included) unchanged; with a name that hits, it succeeds and
overwrites the attribute cursor with the first matching attribute and the
cached value with that attribute's decoded value. -/
theorem attribute_name_selection_spec
    (he : r.error_state = false) (hc : r.node_cursor = some p)
    (hn : nodeAt r.current_doc p = some n) :
    (findAttr n.properties nm = none →
      xml_reader_read_attribute_name r nm = (r, false) ∧
      xml_reader_get_attribute_value (xml_reader_read_attribute_name r nm).1 =
        xml_reader_get_attribute_value r) ∧
    (∀ i a, findAttr n.properties nm = some (i, a) →
      (xml_reader_read_attribute_name r nm).2 = true ∧
      (xml_reader_read_attribute_name r nm).1 =
        { r with attr_cursor := some (p, i), attr_value := some a.value }) := by
  have hha : xml_reader_has_attributes r = decide (n.properties ≠ []) := by
    simp [xml_reader_has_attributes, xml_reader_get_error0, xml_reader_get_error, he, hc, hn]
  constructor
  · intro hfa
    have hunch : xml_reader_read_attribute_name r nm = (r, false) := by
      cases hprops : n.properties with
      | nil =>
        have hhf : xml_reader_has_attributes r = false := by
          rw [hha, hprops]
          simp
        simp [xml_reader_read_attribute_name, hc, hhf]
      | cons a rest =>
        have hht : xml_reader_has_attributes r = true := by
          rw [hha, hprops]
          simp
        simp [xml_reader_read_attribute_name, hc, hht, hn, hfa]
    exact ⟨hunch, by rw [hunch]⟩
  · intro i a hfa
    have hne2 : n.properties ≠ [] := by
      intro h0
      rw [h0] at hfa
      exact Option.noConfusion hfa
    have hht : xml_reader_has_attributes r = true := by
      rw [hha]
      simp [hne2]
    obtain ⟨hg, hnm⟩ := findAttr_sound n.properties nm i a hfa
    have hval : xmlGetProp n a.name = some a.value := by
      unfold xmlGetProp
      rw [hnm]
      exact lookupAttr_of_findAttr n.properties nm i a hfa
    constructor
    · simp [xml_reader_read_attribute_name, hc, hht, hn, hfa]
    · simp [xml_reader_read_attribute_name, hc, hht, hn, hfa, hval]

/-- C8 witness: on the root of `attrDoc` (attributes role and dir), selecting
dir succeeds and overwrites the cached value with rtl, while selecting the
absent zzz fails and leaves the state untouched. -/
theorem attribute_name_selection_spec_witness :
    (xml_reader_read_attribute_name
        (xml_reader_read_start_element (freshLoaded attrDoc) "node").1 "dir").2 = true ∧
    (xml_reader_read_attribute_name
        (xml_reader_read_start_element (freshLoaded attrDoc) "node").1 "dir").1.attr_value =
      some "rtl" ∧
    xml_reader_read_attribute_name
        (xml_reader_read_start_element (freshLoaded attrDoc) "node").1 "zzz" =
      ((xml_reader_read_start_element (freshLoaded attrDoc) "node").1, false) := by
  have h := @attribute_name_selection_spec
      (xml_reader_read_start_element (freshLoaded attrDoc) "node").1 "dir" [0]
      (elemN "node" [⟨"role", "admin"⟩, ⟨"dir", "rtl"⟩] [textN "payload"])
      rfl rfl rfl
  have h2 := @attribute_name_selection_spec
      (xml_reader_read_start_element (freshLoaded attrDoc) "node").1 "zzz" [0]
      (elemN "node" [⟨"role", "admin"⟩, ⟨"dir", "rtl"⟩] [textN "payload"])
      rfl rfl rfl
  refine ⟨(h.2 1 ⟨"dir", "rtl"⟩ rfl).1, ?_, (h2.1 rfl).1⟩
  rw [(h.2 1 ⟨"dir", "rtl"⟩ rfl).2]

end Claims

end XmlReaderModel
